import Mathlib

/-!
Verification of the climatehackai getting-started batching/evaluation core.

The development shallowly embeds the three pieces of the repository that the
specification talks about:

* `ClimateHack.batch` — `BaseEvaluator.batch` from `submission/competition.py`:
  windowed batching of the requested variables of a feature set.
* `ClimateHack.evaluate` — the streaming loop of `BaseEvaluator.evaluate`
  from `submission/competition.py`: the readiness line, the per-sample
  48-length assertion, the per-batch flush discipline, modelled as the
  sequence of write/flush events performed on the output sink.
* `ClimateHack.validateMAE` — the final metric computation of
  `validate.py`: `np.mean(np.absolute(data["targets"] - np.concatenate(predictions)))`,
  including numpy's leading-axis broadcasting rules for the subtraction.

Arrays are modelled as lists of rows; a row of a 2-D array is a `List ℚ`,
while the batcher is polymorphic in the row type (rows of `pv` and `hrv`
have different shapes in the repository, which never inspects them).
-/

namespace ClimateHack

/-- Errors raised by `BaseEvaluator.batch`: the `ValueError` for an empty
variable list (the spec's `ConfigurationError`) and the failed
`assert variable in features` (the spec's `MissingVariableError`). -/
inductive BatchError where
  | configurationError : BatchError
  | missingVariable : String → BatchError
deriving DecidableEq, Repr

/-- A FeatureSet: named, row-indexable series, modelled as an association
list from variable name to the list of that variable's rows (an h5py file's
mapping from dataset name to dataset). -/
abbrev FeatureSet (α : Type) : Type := List (String × List α)

/-- Python slicing `xs[i : i + len]` for a non-negative start `i`:
the elements at indices `i, i+1, ...` up to `min (i + len) xs.length`. -/
def pySlice {α : Type} (xs : List α) (i len : Nat) : List α :=
  (xs.drop i).take len

/-- Python `range(0, stop, step)` for `step ≥ 1` (the only case the source
exercises; Python rejects `step = 0`): the documented semantics is the list
`[0, step, 2*step, ...]` of length `⌈stop / step⌉`. -/
def pyRange (stop step : Nat) : List Nat :=
  (List.range ((stop + step - 1) / step)).map (fun j => j * step)

/-- `BaseEvaluator.batch` from `submission/competition.py`, returning the
full (finite) list of yielded batches, or the error the generator raises
before yielding anything:

```python
if not variables:
    raise ValueError("At least one data variable must be specified.")
for variable in variables:
    assert variable in features
datasets = {variable: features[variable] for variable in variables}
for i in range(0, len(datasets[variables[0]]), batch_size):
    yield [datasets[variable][i : i + batch_size] for variable in variables]
```

The membership loop asserts the variables in order, so the error names the
first missing variable. -/
def batch {α : Type} (features : FeatureSet α) (vars : List String)
    (batch_size : Nat) : Except BatchError (List (List (List α))) :=
  match vars with
  | [] => .error .configurationError
  | v0 :: _ =>
    match vars.find? (fun v => (features.lookup v).isNone) with
    | some v => .error (.missingVariable v)
    | none =>
      .ok ((pyRange ((features.lookup v0).getD []).length batch_size).map
        (fun i => vars.map
          (fun v => pySlice ((features.lookup v).getD []) i batch_size)))

/-- `BaseEvaluator.batch` run as a state transformer on the feature set: the
source only reads `features` (membership tests and slicing reads), so the
post-state is the input feature set unchanged. -/
def batchRun {α : Type} (features : FeatureSet α) (vars : List String)
    (batch_size : Nat) :
    Except BatchError (List (List (List α))) × FeatureSet α :=
  (batch features vars batch_size, features)

/-- The number of rows of a batch: the length of its first variable's slice
(`len(batch[0])`). -/
def batchRows {α : Type} (b : List (List α)) : Nat := (b.headD []).length

theorem pyRange_length (stop step : Nat) :
    (pyRange stop step).length = (stop + step - 1) / step := by
  simp [pyRange]

theorem pyRange_getElem (stop step j : Nat)
    (h : j < (pyRange stop step).length) :
    (pyRange stop step)[j] = j * step := by
  simp [pyRange]

theorem pySlice_length {α : Type} (xs : List α) (i len : Nat) :
    (pySlice xs i len).length = min len (xs.length - i) := by
  simp [pySlice]

theorem pySlice_getElem? {α : Type} (xs : List α) (i len k : Nat)
    (hk : k < len) : (pySlice xs i len)[k]? = xs[i + k]? := by
  simp [pySlice, List.getElem?_take, hk, List.getElem?_drop]

/-- Unfolding of `pyRange` for a positive stop: the first window starts at 0
and the remaining windows are those of the rest of the data, shifted. -/
theorem pyRange_pos (stop step : Nat) (hstep : 0 < step) (hstop : 0 < stop) :
    pyRange stop step = 0 :: (pyRange (stop - step) step).map (fun i => i + step) := by
  have hcount : (stop + step - 1) / step = (stop - step + step - 1) / step + 1 := by
    rcases Nat.le_total stop step with h | h
    · have h1 : (stop + step - 1) / step = 1 := by
        have h2 : stop + step - 1 = (stop - 1) + step := by omega
        rw [h2, Nat.add_div_right _ hstep, Nat.div_eq_of_lt (by omega)]
      have h3 : (stop - step + step - 1) / step = 0 := by
        have h4 : stop - step + step - 1 = step - 1 := by omega
        rw [h4, Nat.div_eq_of_lt (by omega)]
      omega
    · have h2 : stop + step - 1 = (stop - step + step - 1) + step := by omega
      rw [h2, Nat.add_div_right _ hstep]
  rw [pyRange, pyRange, hcount, List.range_succ_eq_map]
  simp only [List.map_cons, List.map_map, Nat.zero_mul, List.cons.injEq, true_and]
  apply List.map_congr_left
  intro j _
  simp [Function.comp, Nat.succ_mul, Nat.add_mul, Nat.add_comm]

/-- The windows of `pyRange` slice the list into consecutive chunks whose
concatenation is the whole list. -/
theorem flatten_pySlice_pyRange {α : Type} (step : Nat) (hstep : 0 < step) :
    ∀ (n : Nat) (xs : List α), xs.length = n →
      ((pyRange xs.length step).map (fun i => pySlice xs i step)).flatten = xs := by
  intro n
  induction n using Nat.strong_induction_on with
  | _ n ih =>
    intro xs hxs
    rcases Nat.eq_zero_or_pos n with hz | hpos
    · subst hz
      have hnil : xs = [] := List.length_eq_zero.mp hxs
      subst hnil
      have h0 : ([] : List α).length = 0 := rfl
      rw [h0, pyRange, Nat.div_eq_of_lt (by omega)]
      simp
    · rw [pyRange_pos xs.length step hstep (by omega)]
      have hdrop : (xs.drop step).length = n - step := by
        simp [hxs]
      have hrec := ih (n - step) (by omega) (xs.drop step) hdrop
      rw [List.map_cons, List.flatten_cons, List.map_map]
      have hmap : ((pyRange (xs.length - step) step).map
            ((fun i => pySlice xs i step) ∘ (fun i => i + step))) =
          (pyRange ((xs.drop step).length) step).map
            (fun i => pySlice (xs.drop step) i step) := by
        rw [hdrop, hxs]
        apply List.map_congr_left
        intro i _
        show pySlice xs (i + step) step = pySlice (xs.drop step) i step
        unfold pySlice
        rw [List.drop_drop]
        congr 2
        omega
      rw [hmap, hrec]
      show pySlice xs 0 step ++ xs.drop step = xs
      unfold pySlice
      rw [List.drop_zero]
      exact List.take_append_drop step xs

/-- Structure of a successful `batch` call: when the variable list is
non-empty and every requested variable is present, the result is the list of
aligned window slices, one window per element of `pyRange` over the length
of the first variable's series. -/
theorem batch_ok {α : Type} (features : FeatureSet α) (v0 : String)
    (rest : List String) (batch_size : Nat)
    (hpresent : ∀ v ∈ v0 :: rest, (features.lookup v).isSome) :
    batch features (v0 :: rest) batch_size =
      .ok ((pyRange ((features.lookup v0).getD []).length batch_size).map
        (fun i => (v0 :: rest).map
          (fun v => pySlice ((features.lookup v).getD []) i batch_size))) := by
  have hfind : (v0 :: rest).find? (fun v => (features.lookup v).isNone) = none := by
    rw [List.find?_eq_none]
    intro v hv
    have := hpresent v hv
    simp only [Option.isNone_iff_eq_none]
    intro hnone
    rw [hnone] at this
    simp at this
  simp only [batch, hfind]

/-- C1: for a FeatureSet whose requested series all have `N` samples, a
non-empty, present variable list and a positive batch size, `batch` yields
exactly `⌈N / batch_size⌉` batches; batch `j` covers the window
`[j * batch_size, j * batch_size + batch_size)` of every variable, every
slice of batch `j` has `min batch_size (N - j * batch_size)` rows, the row
counts sum to `N`, and every batch but the last has exactly `batch_size`
rows (the last may be shorter; there is no padding). -/
theorem batcher_yields_ceil_batches {α : Type} (features : FeatureSet α)
    (v0 : String) (rest : List String) (batch_size N : Nat)
    (hbs : 0 < batch_size)
    (hN : ∀ v ∈ v0 :: rest, ∃ s, features.lookup v = some s ∧ s.length = N) :
    ∃ batches, batch features (v0 :: rest) batch_size = .ok batches ∧
      batches.length = (N + batch_size - 1) / batch_size ∧
      (∀ j, (hj : j < batches.length) →
        batches[j] = (v0 :: rest).map
          (fun v => pySlice ((features.lookup v).getD []) (j * batch_size) batch_size)) ∧
      (∀ j, (hj : j < batches.length) → ∀ sl ∈ batches[j],
        sl.length = min batch_size (N - j * batch_size)) ∧
      (batches.map batchRows).sum = N ∧
      (∀ j, (hj : j < batches.length) → j + 1 < batches.length →
        batchRows batches[j] = batch_size) := by
  obtain ⟨s0, hs0, hs0len⟩ := hN v0 (List.mem_cons_self v0 rest)
  have hpresent : ∀ v ∈ v0 :: rest, (features.lookup v).isSome := by
    intro v hv
    obtain ⟨s, hs, _⟩ := hN v hv
    simp [hs]
  have hgd : (features.lookup v0).getD [] = s0 := by rw [hs0]; rfl
  refine ⟨_, batch_ok features v0 rest batch_size hpresent, ?_, ?_, ?_, ?_, ?_⟩
  · simp [pyRange_length, hgd, hs0len]
  · intro j hj
    simp only [List.length_map] at hj
    simp [List.getElem_map, pyRange_getElem _ _ _ hj]
  · intro j hj sl hsl
    simp only [List.length_map] at hj
    simp only [List.getElem_map, pyRange_getElem _ _ _ hj] at hsl
    obtain ⟨v, hv, rfl⟩ := List.mem_map.mp hsl
    obtain ⟨sv, hsv, hsvlen⟩ := hN v hv
    rw [pySlice_length]
    rw [hsv]
    simp [hsvlen]
  · have hrows : ((pyRange ((features.lookup v0).getD []).length batch_size).map
        (fun i => (v0 :: rest).map
          (fun v => pySlice ((features.lookup v).getD []) i batch_size))).map batchRows
        = ((pyRange s0.length batch_size).map (fun i => pySlice s0 i batch_size)).map
            List.length := by
      rw [hgd, List.map_map, List.map_map]
      apply List.map_congr_left
      intro i _
      simp [batchRows, hgd]
    rw [hrows, ← List.length_flatten,
      flatten_pySlice_pyRange batch_size hbs s0.length s0 rfl, hs0len]
  · intro j hj hlast
    simp only [List.length_map] at hj
    simp only [List.length_map, pyRange_length, hgd, hs0len] at hlast
    simp only [List.getElem_map, pyRange_getElem _ _ _ hj]
    show batchRows ((v0 :: rest).map
      (fun v => pySlice ((features.lookup v).getD []) (j * batch_size) batch_size))
        = batch_size
    simp only [batchRows, List.map_cons, List.headD_cons]
    rw [pySlice_length, hgd, hs0len]
    have hK : (N + batch_size - 1) / batch_size * batch_size ≤ N + batch_size - 1 :=
      Nat.div_mul_le_self _ _
    have hjK : j + 2 ≤ (N + batch_size - 1) / batch_size := by omega
    have h1 : (j + 2) * batch_size ≤ (N + batch_size - 1) / batch_size * batch_size :=
      Nat.mul_le_mul_right batch_size hjK
    have key : j * batch_size + 2 * batch_size ≤ N + batch_size - 1 := by
      have hexp : (j + 2) * batch_size = j * batch_size + 2 * batch_size := by ring
      omega
    have h2 : ∀ a : Nat, a + 2 * batch_size ≤ N + batch_size - 1 →
        batch_size ≤ N - a := by
      intro a ha
      omega
    exact min_eq_left (h2 (j * batch_size) key)

/-- Witness for C1: the spec's end-to-end scenario 1 — two length-100 series
and `batch_size = 32` give 4 batches whose row counts sum to 100. -/
theorem batcher_yields_ceil_batches_witness :
    ∃ batches, batch [("pv", List.range 100), ("hrv", List.range 100)]
        ("pv" :: ["hrv"]) 32 = .ok batches ∧
      batches.length = 4 ∧ (batches.map batchRows).sum = 100 := by
  obtain ⟨batches, hok, hlen, -, -, hsum, -⟩ :=
    batcher_yields_ceil_batches [("pv", List.range 100), ("hrv", List.range 100)]
      "pv" ["hrv"] 32 100 (by decide)
      (by
        intro v hv
        simp only [List.mem_cons, List.not_mem_nil, or_false] at hv
        rcases hv with rfl | rfl
        · exact ⟨List.range 100, rfl, by simp⟩
        · exact ⟨List.range 100, rfl, by simp⟩)
  exact ⟨batches, hok, by rw [hlen], hsum⟩

/-- C2: every variable of a batch is sliced with the identical offset window:
position `k` of the `vi`-th variable's slice of batch `j` is element
`j * batch_size + k` of that variable's series. -/
theorem batch_alignment {α : Type} (features : FeatureSet α) (vars : List String)
    (batch_size : Nat) (batches : List (List (List α)))
    (hok : batch features vars batch_size = .ok batches)
    (j vi k : Nat) (hj : j < batches.length) (hvi : vi < vars.length)
    (sv : List α) (hsv : features.lookup (vars.get ⟨vi, hvi⟩) = some sv)
    (hk : k < batch_size) :
    ∃ sl, batches[j][vi]? = some sl ∧ sl[k]? = sv[j * batch_size + k]? := by
  cases vars with
  | nil => simp [batch] at hok
  | cons v0 rest =>
    simp only [batch] at hok
    cases hfind : (v0 :: rest).find? (fun v => (features.lookup v).isNone) with
    | some v => rw [hfind] at hok; simp at hok
    | none =>
      rw [hfind] at hok
      simp only [Except.ok.injEq] at hok
      subst hok
      simp only [List.length_map] at hj
      simp only [List.getElem_map, pyRange_getElem _ _ _ hj]
      refine ⟨pySlice sv (j * batch_size) batch_size, ?_, ?_⟩
      · rw [List.getElem?_map, List.getElem?_eq_getElem hvi]
        rw [List.get_eq_getElem] at hsv
        simp [hsv]
      · exact pySlice_getElem? sv (j * batch_size) batch_size k hk

/-- Witness for C2: a two-variable feature set with `batch_size = 2`; in
batch 0, position 1 of variable `b`'s slice is sample 1 of `b`'s series. -/
theorem batch_alignment_witness :
    ∃ sl, ([[[10, 20], [40, 50]], [[30], [60]]] : List (List (List Nat)))[0][1]?
        = some sl ∧ sl[1]? = ([40, 50, 60] : List Nat)[0 * 2 + 1]? := by
  exact batch_alignment [("a", [10, 20, 30]), ("b", [40, 50, 60])] ["a", "b"] 2
    [[[10, 20], [40, 50]], [[30], [60]]] (by rfl) 0 1 1 (by decide) (by decide)
    [40, 50, 60] (by decide) (by decide)

/-- C3: a requested variable list containing a name absent from the
FeatureSet makes `batch` fail with `missingVariable` (the first absent name,
by the order of the membership loop) before any batch is yielded. -/
theorem batch_missing_variable {α : Type} (features : FeatureSet α)
    (vars : List String) (batch_size : Nat) (v : String)
    (hv : v ∈ vars) (habsent : features.lookup v = none) :
    ∃ w, w ∈ vars ∧ features.lookup w = none ∧
      batch features vars batch_size = .error (.missingVariable w) := by
  cases vars with
  | nil => cases hv
  | cons v0 rest =>
    have hne : (v0 :: rest).find? (fun v => (features.lookup v).isNone) ≠ none := by
      intro hnone
      rw [List.find?_eq_none] at hnone
      have := hnone v hv
      rw [habsent] at this
      simp at this
    obtain ⟨w, hw⟩ := Option.ne_none_iff_exists'.mp hne
    refine ⟨w, List.mem_of_find?_eq_some hw, ?_, ?_⟩
    · have hwp := List.find?_some hw
      simpa using hwp
    · simp only [batch, hw]

/-- Witness for C3: requesting the absent variable `zzz` fails with
`missingVariable`. -/
theorem batch_missing_variable_witness :
    ∃ w, w ∈ ["a", "zzz"] ∧
      ([("a", [1, 2, 3])] : FeatureSet Nat).lookup w = none ∧
      batch [("a", [1, 2, 3])] ["a", "zzz"] 32 = .error (.missingVariable w) :=
  batch_missing_variable [("a", [1, 2, 3])] ["a", "zzz"] 32 "zzz"
    (by decide) (by decide)

/-- C8: `batch` is a pure read of the feature set — run as a state
transformer it leaves the FeatureSet unchanged, and running it a second time
on the post-state yields the identical result (same batches, same order). -/
theorem batchRun_idempotent {α : Type} (features : FeatureSet α)
    (vars : List String) (batch_size : Nat) :
    (batchRun features vars batch_size).2 = features ∧
      (batchRun (batchRun features vars batch_size).2 vars batch_size).1
        = (batchRun features vars batch_size).1 ∧
      (batchRun (batchRun features vars batch_size).2 vars batch_size).2
        = features :=
  ⟨rfl, rfl, rfl⟩

/-- C9: the number of batches is determined solely by the length of the
FIRST requested variable's series: with every variable present (but no
constraint relating series lengths), `batch` raises no error, yields
`⌈(first series length) / batch_size⌉` batches, and each variable's slice of
batch `j` is silently truncated to `min batch_size (its length - j * batch_size)`
rows — shorter series simply contribute fewer (possibly zero) rows. -/
theorem batch_count_first_variable_only {α : Type} (features : FeatureSet α)
    (v0 : String) (rest : List String) (batch_size : Nat) (s0 : List α)
    (hbs : 0 < batch_size)
    (hs0 : features.lookup v0 = some s0)
    (hpresent : ∀ v ∈ v0 :: rest, (features.lookup v).isSome) :
    ∃ batches, batch features (v0 :: rest) batch_size = .ok batches ∧
      batches.length = (s0.length + batch_size - 1) / batch_size ∧
      (∀ j, (hj : j < batches.length) →
        batches[j] = (v0 :: rest).map
          (fun v => pySlice ((features.lookup v).getD []) (j * batch_size) batch_size)) ∧
      (∀ v ∈ v0 :: rest, ∀ sv, features.lookup v = some sv → ∀ j : Nat,
        (pySlice sv (j * batch_size) batch_size).length
          = min batch_size (sv.length - j * batch_size)) := by
  have hgd : (features.lookup v0).getD [] = s0 := by rw [hs0]; rfl
  refine ⟨_, batch_ok features v0 rest batch_size hpresent, ?_, ?_, ?_⟩
  · simp [pyRange_length, hgd]
  · intro j hj
    simp only [List.length_map] at hj
    simp [List.getElem_map, pyRange_getElem _ _ _ hj]
  · intro v _ sv hsv j
    rw [pySlice_length]

/-- Witness for C9: variable `a` has 4 samples, variable `b` only 2; with
`batch_size = 2` the batcher raises no error and yields 2 batches, the
second of which holds 2 rows of `a` but an empty slice of `b`. -/
theorem batch_count_first_variable_only_witness :
    ∃ batches, batch [("a", [1, 2, 3, 4]), ("b", [1, 2])] ("a" :: ["b"]) 2
        = .ok batches ∧
      batches.length = 2 ∧ batches = [[[1, 2], [1, 2]], [[3, 4], []]] := by
  obtain ⟨batches, hok, hlen, -, -⟩ :=
    batch_count_first_variable_only [("a", [1, 2, 3, 4]), ("b", [1, 2])]
      "a" ["b"] 2 [1, 2, 3, 4] (by decide) (by decide) (by decide)
  refine ⟨batches, hok, by simp [hlen], ?_⟩
  have hB : batch [("a", [1, 2, 3, 4]), ("b", [1, 2])] ("a" :: ["b"]) 2
      = Except.ok [[[1, 2], [1, 2]], [[3, 4], []]] := by rfl
  rw [hok] at hB
  exact Except.ok.inj hB

/-! ### The streaming loop of `BaseEvaluator.evaluate`

`evaluate` opens the output sink, writes the readiness line `"OK\n"`,
flushes, then iterates the prediction batches; each sample is asserted to
have shape `(48,)` before its comma-joined line is written, and the sink is
flushed once after each batch. We model the sink as the list of `write` and
`flush` calls performed on it, and a failure of the shape assertion (or of
opening the feature file / starting the prediction generator, which happens
after the readiness flush) as the error that aborts the loop. -/

/-- A call performed on the output sink: a `write` of one string, or a
`flush`. -/
inductive Event where
  | write : String → Event
  | flush : Event
deriving DecidableEq, Repr

/-- The line written for one sample:
`",".join([str(float(number)) for number in sample]) + "\n"`, with the
number formatting `str(float(·))` abstracted as `render`. -/
def sampleLine {α : Type} (render : α → String) (sample : List α) : String :=
  String.intercalate "," (sample.map render) ++ "\n"

/-- The inner loop of `evaluate` over one batch:
`for sample in batch: assert sample.shape == (48,); f.write(...)`.
Returns the writes performed and, if some sample fails the length-48
assertion, that first offending sample (nothing is written for it). -/
def writeSamples {α : Type} (render : α → String) :
    List (List α) → List Event × Option (List α)
  | [] => ([], none)
  | s :: rest =>
    if s.length = 48 then
      let p := writeSamples render rest
      (Event.write (sampleLine render s) :: p.1, p.2)
    else ([], some s)

/-- The outer loop of `evaluate`: after each fully written batch the sink is
flushed (`f.flush()`), then the next batch is pulled; a failed assertion
aborts the loop mid-batch with no flush for the incomplete batch. -/
def writeBatches {α : Type} (render : α → String) :
    List (List (List α)) → List Event × Option (List α)
  | [] => ([], none)
  | b :: rest =>
    let p := writeSamples render b
    match p.2 with
    | some s => (p.1, some s)
    | none =>
      let q := writeBatches render rest
      (p.1 ++ Event.flush :: q.1, q.2)

/-- An error that aborts `evaluate` after the readiness flush: either the
feature file could not be opened / the prediction generator failed before
its first batch (`openFailed`), or a prediction vector failed the
length-48 assertion (`shapeError`, carrying the offending sample). -/
inductive EvalError (ε α : Type) where
  | openFailed : ε → EvalError ε α
  | shapeError : List α → EvalError ε α
deriving DecidableEq, Repr

/-- `BaseEvaluator.evaluate` from `submission/competition.py`, as the
sequence of sink events it performs:

```python
with open(f"{stream_directory}/out", "w") as f:
    f.write("OK\n")
    f.flush()
    for batch in self.predict(features=h5py.File(sys.argv[1], "r")):
        for sample in batch:
            assert sample.shape == (48,)
            f.write(",".join([str(float(number)) for number in sample]) + "\n")
        f.flush()
```

The argument of `self.predict(...)` — including the `h5py.File` open — is
evaluated when the `for` statement first runs, i.e. after the readiness
write and flush; `pred` is the outcome of that step: either the failure it
raises, or the batches the generator yields. -/
def evaluate {α ε : Type} (render : α → String)
    (pred : Except ε (List (List (List α)))) :
    List Event × Option (EvalError ε α) :=
  match pred with
  | .error e => ([Event.write "OK\n", Event.flush], some (.openFailed e))
  | .ok batches =>
    let p := writeBatches render batches
    (Event.write "OK\n" :: Event.flush :: p.1, p.2.map EvalError.shapeError)

/-- The strings written by a sequence of sink events, in order. -/
def writesOf (tr : List Event) : List String :=
  tr.filterMap (fun e => match e with | .write s => some s | .flush => none)

theorem writesOf_write_cons (s : String) (tr : List Event) :
    writesOf (Event.write s :: tr) = s :: writesOf tr := rfl

theorem writesOf_flush_cons (tr : List Event) :
    writesOf (Event.flush :: tr) = writesOf tr := rfl

theorem writesOf_append (a b : List Event) :
    writesOf (a ++ b) = writesOf a ++ writesOf b := by
  simp [writesOf]

theorem writesOf_lines {α : Type} (render : α → String) (b : List (List α)) :
    writesOf (b.map (fun s => Event.write (sampleLine render s)))
      = b.map (sampleLine render) := by
  induction b with
  | nil => rfl
  | cons x xs ih =>
    rw [List.map_cons, writesOf_write_cons, ih, List.map_cons]

theorem writesOf_blocks {α : Type} (render : α → String)
    (batches : List (List (List α))) :
    writesOf ((batches.map (fun b =>
        b.map (fun s => Event.write (sampleLine render s)) ++ [Event.flush])).flatten)
      = batches.flatten.map (sampleLine render) := by
  induction batches with
  | nil => rfl
  | cons b bs ih =>
    rw [List.map_cons, List.flatten_cons, writesOf_append, writesOf_append,
      writesOf_lines, ih, List.flatten_cons, List.map_append]
    simp [writesOf]

theorem writeSamples_all48 {α : Type} (render : α → String)
    (b : List (List α)) (hall : ∀ s ∈ b, s.length = 48) :
    writeSamples render b
      = (b.map (fun s => Event.write (sampleLine render s)), none) := by
  induction b with
  | nil => rfl
  | cons s rest ih =>
    have hs : s.length = 48 := hall s (List.mem_cons_self s rest)
    have hrest := ih (fun x hx => hall x (List.mem_cons_of_mem s hx))
    simp [writeSamples, hs, hrest]

theorem writeSamples_err {α : Type} (render : α → String)
    (b : List (List α)) (tr : List Event) (s : List α)
    (h : writeSamples render b = (tr, some s)) :
    s.length ≠ 48 ∧ ∃ pre rest, b = pre ++ s :: rest ∧
      (∀ x ∈ pre, x.length = 48) ∧
      tr = pre.map (fun x => Event.write (sampleLine render x)) := by
  induction b generalizing tr with
  | nil => simp [writeSamples] at h
  | cons x xs ih =>
    by_cases hx : x.length = 48
    · rw [writeSamples, if_pos hx] at h
      have htr := congrArg Prod.fst h
      have hres := congrArg Prod.snd h
      simp only at htr hres
      cases htail : (writeSamples render xs).2 with
      | none => rw [htail] at hres; simp at hres
      | some s' =>
        rw [htail] at hres
        obtain rfl : s' = s := by simpa using hres
        obtain ⟨hlen, pre, rest, hsplit, hpre, htr'⟩ :=
          ih (writeSamples render xs).1 (by rw [← htail])
        refine ⟨hlen, x :: pre, rest, by rw [hsplit]; rfl, ?_, ?_⟩
        · intro y hy
          rcases List.mem_cons.mp hy with rfl | hy
          · exact hx
          · exact hpre y hy
        · rw [← htr, htr']
          rfl
    · rw [writeSamples, if_neg hx] at h
      have htr := congrArg Prod.fst h
      have hres := congrArg Prod.snd h
      simp only at htr hres
      obtain rfl : x = s := by simpa using hres
      exact ⟨hx, [], xs, rfl, by simp, by rw [← htr]; rfl⟩

theorem writeSamples_none {α : Type} (render : α → String)
    (b : List (List α)) (tr : List Event)
    (h : writeSamples render b = (tr, none)) :
    (∀ s ∈ b, s.length = 48) ∧
      tr = b.map (fun x => Event.write (sampleLine render x)) := by
  induction b generalizing tr with
  | nil =>
    have htr := congrArg Prod.fst h
    simp only at htr
    exact ⟨by simp, by rw [← htr]; rfl⟩
  | cons x xs ih =>
    by_cases hx : x.length = 48
    · rw [writeSamples, if_pos hx] at h
      have htr := congrArg Prod.fst h
      have hres := congrArg Prod.snd h
      simp only at htr hres
      cases htail : (writeSamples render xs).2 with
      | some s' => rw [htail] at hres; simp at hres
      | none =>
        obtain ⟨hall, htr'⟩ := ih (writeSamples render xs).1 (by rw [← htail])
        refine ⟨?_, ?_⟩
        · intro y hy
          rcases List.mem_cons.mp hy with rfl | hy
          · exact hx
          · exact hall y hy
        · rw [← htr, htr']
          rfl
    · rw [writeSamples, if_neg hx] at h
      have hres := congrArg Prod.snd h
      simp only at hres
      simp at hres

theorem writeBatches_all48 {α : Type} (render : α → String)
    (batches : List (List (List α)))
    (hall : ∀ s ∈ batches.flatten, s.length = 48) :
    writeBatches render batches
      = ((batches.map (fun b =>
          b.map (fun s => Event.write (sampleLine render s)) ++ [Event.flush])).flatten,
         none) := by
  induction batches with
  | nil => rfl
  | cons b rest ih =>
    have hb : ∀ s ∈ b, s.length = 48 := by
      intro s hs
      exact hall s (by simp [hs])
    have hrest : ∀ s ∈ rest.flatten, s.length = 48 := by
      intro s hs
      exact hall s (by simp; right; simpa using hs)
    rw [writeBatches, writeSamples_all48 render b hb]
    simp only [ih hrest]
    simp

theorem writeBatches_err {α : Type} (render : α → String)
    (batches : List (List (List α))) (tr : List Event) (s : List α)
    (h : writeBatches render batches = (tr, some s)) :
    s.length ≠ 48 ∧ ∃ done part rest after,
      batches = done ++ (part ++ s :: after) :: rest ∧
      (∀ x ∈ done.flatten, x.length = 48) ∧ (∀ x ∈ part, x.length = 48) ∧
      tr = (done.map (fun b =>
          b.map (fun x => Event.write (sampleLine render x)) ++ [Event.flush])).flatten
        ++ part.map (fun x => Event.write (sampleLine render x)) := by
  induction batches generalizing tr with
  | nil => simp [writeBatches] at h
  | cons b bs ih =>
    rw [writeBatches] at h
    cases hb : (writeSamples render b).2 with
    | some s' =>
      rw [hb] at h
      have h' : ((writeSamples render b).1, some s') = (tr, some s) := h
      have htr : (writeSamples render b).1 = tr := congrArg Prod.fst h'
      have hres : some s' = some s := congrArg Prod.snd h'
      have hss : s' = s := Option.some.inj hres
      obtain ⟨hlen, pre, after, hsplit, hpre, htr'⟩ :=
        writeSamples_err render b (writeSamples render b).1 s' (by rw [← hb])
      rw [hss] at hlen hsplit
      refine ⟨hlen, [], pre, bs, after, by rw [hsplit]; rfl, by simp, hpre, ?_⟩
      rw [← htr, htr']
      rfl
    | none =>
      rw [hb] at h
      have h' : ((writeSamples render b).1 ++ Event.flush :: (writeBatches render bs).1,
          (writeBatches render bs).2) = (tr, some s) := h
      have htr : (writeSamples render b).1 ++ Event.flush :: (writeBatches render bs).1
          = tr := congrArg Prod.fst h'
      have hres : (writeBatches render bs).2 = some s := congrArg Prod.snd h'
      obtain ⟨hall, htrb⟩ :=
        writeSamples_none render b (writeSamples render b).1 (by rw [← hb])
      obtain ⟨hlen, done, part, rest, after, hsplit, hdone, hpart, htr'⟩ :=
        ih (writeBatches render bs).1 (by rw [← hres])
      refine ⟨hlen, b :: done, part, rest, after, by rw [hsplit]; rfl, ?_, hpart, ?_⟩
      · intro x hx
        rcases List.mem_flatten.mp hx with ⟨l, hl, hxl⟩
        rcases List.mem_cons.mp hl with rfl | hl
        · exact hall x hxl
        · exact hdone x (List.mem_flatten.mpr ⟨l, hl, hxl⟩)
      · rw [← htr, htrb, htr']
        simp

theorem writeBatches_none {α : Type} (render : α → String)
    (batches : List (List (List α))) (tr : List Event)
    (h : writeBatches render batches = (tr, none)) :
    (∀ s ∈ batches.flatten, s.length = 48) := by
  induction batches generalizing tr with
  | nil => simp
  | cons b bs ih =>
    rw [writeBatches] at h
    cases hb : (writeSamples render b).2 with
    | some s' =>
      rw [hb] at h
      have h' : ((writeSamples render b).1, some s') = (tr, none) := h
      have hres : some s' = none := congrArg Prod.snd h'
      simp at hres
    | none =>
      rw [hb] at h
      have h' : ((writeSamples render b).1 ++ Event.flush :: (writeBatches render bs).1,
          (writeBatches render bs).2) = (tr, none) := h
      have hres : (writeBatches render bs).2 = none := congrArg Prod.snd h'
      obtain ⟨hall, -⟩ :=
        writeSamples_none render b (writeSamples render b).1 (by rw [← hb])
      intro s hs
      rcases List.mem_flatten.mp hs with ⟨l, hl, hsl⟩
      rcases List.mem_cons.mp hl with rfl | hl
      · exact hall s hsl
      · exact ih (writeBatches render bs).1 (by rw [← hres])
          s (List.mem_flatten.mpr ⟨l, hl, hsl⟩)

/-- C4: every run of the streaming loop on prediction batches behaves as
follows. If every prediction vector has length exactly 48, no error is
raised and the lines written to the sink, after the readiness line, are
exactly one line per sample in order. If the run raises a `shapeError` on a
sample `s`, then `s` has length ≠ 48, every sample strictly before `s` had
length 48, and the sink holds the readiness line plus exactly the lines of
those earlier samples — no line, partial or otherwise, was written for `s`.
Conversely a sample of length ≠ 48 always makes the run raise `shapeError`. -/
theorem streamWriter_shape_discipline {α ε : Type} (render : α → String)
    (batches : List (List (List α))) :
    ((∀ s ∈ batches.flatten, s.length = 48) →
      (evaluate (ε := ε) render (.ok batches)).2 = none ∧
      writesOf (evaluate (ε := ε) render (.ok batches)).1
        = "OK\n" :: batches.flatten.map (sampleLine render)) ∧
    (∀ tr s, evaluate (ε := ε) render (.ok batches) = (tr, some (.shapeError s)) →
      s.length ≠ 48 ∧ ∃ pre rest, batches.flatten = pre ++ s :: rest ∧
        (∀ x ∈ pre, x.length = 48) ∧
        writesOf tr = "OK\n" :: pre.map (sampleLine render)) ∧
    ((∃ s ∈ batches.flatten, s.length ≠ 48) →
      ∃ tr s, evaluate (ε := ε) render (.ok batches) = (tr, some (.shapeError s))) := by
  refine ⟨?_, ?_, ?_⟩
  · intro hall
    have hw := writeBatches_all48 render batches hall
    constructor
    · show (writeBatches render batches).2.map EvalError.shapeError = none
      rw [hw]
      rfl
    · show writesOf (Event.write "OK\n" :: Event.flush :: (writeBatches render batches).1)
        = "OK\n" :: batches.flatten.map (sampleLine render)
      rw [writesOf_write_cons, writesOf_flush_cons]
      have h1 : (writeBatches render batches).1 = (batches.map (fun b =>
          b.map (fun s => Event.write (sampleLine render s)) ++ [Event.flush])).flatten := by
        rw [hw]
      rw [h1, writesOf_blocks]
  · intro tr s h
    have h1 : Event.write "OK\n" :: Event.flush :: (writeBatches render batches).1 = tr :=
      congrArg Prod.fst h
    have h2 : (writeBatches render batches).2.map EvalError.shapeError
        = some (.shapeError s) := congrArg Prod.snd h
    have hs2 : (writeBatches render batches).2 = some s := by
      cases hb : (writeBatches render batches).2 with
      | none => rw [hb] at h2; simp at h2
      | some x =>
        rw [hb] at h2
        simp at h2
        rw [h2]
    obtain ⟨hlen, done, part, rest, after, hsplit, hdone, hpart, htr'⟩ :=
      writeBatches_err render batches (writeBatches render batches).1 s
        (by rw [← hs2])
    refine ⟨hlen, done.flatten ++ part, after ++ rest.flatten, ?_, ?_, ?_⟩
    · rw [hsplit]
      simp
    · intro x hx
      rcases List.mem_append.mp hx with hx | hx
      · exact hdone x hx
      · exact hpart x hx
    · rw [← h1, writesOf_write_cons, writesOf_flush_cons, htr', writesOf_append,
        writesOf_blocks, writesOf_lines, List.map_append]
  · intro ⟨s, hs, hlen⟩
    cases hb : (writeBatches render batches).2 with
    | some x =>
      refine ⟨Event.write "OK\n" :: Event.flush :: (writeBatches render batches).1, x, ?_⟩
      show (Event.write "OK\n" :: Event.flush :: (writeBatches render batches).1,
        (writeBatches render batches).2.map EvalError.shapeError) = _
      rw [hb]
      rfl
    | none =>
      exfalso
      exact hlen (writeBatches_none render batches (writeBatches render batches).1
        (by rw [← hb]) s hs)

/-- Witness for C4: one batch holding a length-48 sample followed by a
length-47 sample; the run fails on the length-47 sample, and the sink holds
only the readiness line and the length-48 sample's line — nothing for the
offending sample. -/
theorem streamWriter_shape_discipline_witness :
    (List.replicate 47 (0 : Nat)).length ≠ 48 ∧
    ∃ pre rest,
      ([[List.replicate 48 (0 : Nat), List.replicate 47 0]] :
          List (List (List Nat))).flatten = pre ++ List.replicate 47 0 :: rest ∧
      (∀ x ∈ pre, x.length = 48) ∧
      writesOf [Event.write "OK\n", Event.flush,
          Event.write (sampleLine (fun _ : Nat => "0") (List.replicate 48 0))]
        = "OK\n" :: pre.map (sampleLine (fun _ : Nat => "0")) :=
  (streamWriter_shape_discipline (ε := Unit) (fun _ : Nat => "0")
      [[List.replicate 48 0, List.replicate 47 0]]).2.1
    [Event.write "OK\n", Event.flush,
      Event.write (sampleLine (fun _ : Nat => "0") (List.replicate 48 0))]
    (List.replicate 47 0) (by rfl)

/-- C5: on every live-mode run the first two sink events are the write of
the readiness line `"OK\n"` and a flush — so the readiness line is written
and flushed before any prediction line; and on a run whose prediction
vectors all have length 48, the full event sequence is the readiness write,
its flush, and then, for each batch, the writes of that batch's sample
lines followed by exactly one flush — one flush per fully written batch,
none between individual samples. -/
theorem streamWriter_flush_discipline {α ε : Type} (render : α → String) :
    (∀ pred : Except ε (List (List (List α))), ∃ tail,
      (evaluate render pred).1 = Event.write "OK\n" :: Event.flush :: tail) ∧
    (∀ batches : List (List (List α)), (∀ s ∈ batches.flatten, s.length = 48) →
      evaluate (ε := ε) render (.ok batches)
        = (Event.write "OK\n" :: Event.flush ::
            (batches.map (fun b =>
              b.map (fun s => Event.write (sampleLine render s)) ++ [Event.flush])).flatten,
           none)) ∧
    (∀ batches : List (List (List α)), ∀ tr s,
      evaluate (ε := ε) render (.ok batches) = (tr, some (.shapeError s)) →
      ∃ (done : List (List (List α))) (part : List (List α)),
        (∀ x ∈ part, x.length = 48) ∧
        tr = Event.write "OK\n" :: Event.flush ::
          ((done.map (fun b =>
            b.map (fun x => Event.write (sampleLine render x)) ++ [Event.flush])).flatten
            ++ part.map (fun x => Event.write (sampleLine render x)))) := by
  refine ⟨?_, ?_, ?_⟩
  · intro pred
    cases pred with
    | error e => exact ⟨[], rfl⟩
    | ok batches => exact ⟨(writeBatches render batches).1, rfl⟩
  · intro batches hall
    show (Event.write "OK\n" :: Event.flush :: (writeBatches render batches).1,
      (writeBatches render batches).2.map EvalError.shapeError) = _
    rw [writeBatches_all48 render batches hall]
    rfl
  · intro batches tr s h
    have h1 : Event.write "OK\n" :: Event.flush :: (writeBatches render batches).1 = tr :=
      congrArg Prod.fst h
    have h2 : (writeBatches render batches).2.map EvalError.shapeError
        = some (.shapeError s) := congrArg Prod.snd h
    have hs2 : (writeBatches render batches).2 = some s := by
      cases hb : (writeBatches render batches).2 with
      | none => rw [hb] at h2; simp at h2
      | some x =>
        rw [hb] at h2
        simp at h2
        rw [h2]
    obtain ⟨-, done, part, rest, after, -, -, hpart, htr'⟩ :=
      writeBatches_err render batches (writeBatches render batches).1 s
        (by rw [← hs2])
    exact ⟨done, part, hpart, by rw [← h1, htr']⟩

/-- Witness for C5: a run with two all-valid batches produces the readiness
write, its flush, then each batch's lines followed by exactly one flush. -/
theorem streamWriter_flush_discipline_witness :
    evaluate (ε := Unit) (fun _ : Nat => "0")
        (.ok [[List.replicate 48 0], [List.replicate 48 0]])
      = (Event.write "OK\n" :: Event.flush ::
          (([[List.replicate 48 (0 : Nat)], [List.replicate 48 0]].map (fun b =>
            b.map (fun s => Event.write (sampleLine (fun _ : Nat => "0") s))
              ++ [Event.flush])).flatten),
         none) :=
  (streamWriter_flush_discipline (ε := Unit) (fun _ : Nat => "0")).2.1
    [[List.replicate 48 0], [List.replicate 48 0]] (by decide)

/-- C10: the readiness line is written and flushed before the feature file
is opened and before the first prediction is requested: when that step
fails, the run aborts with `openFailed` and the sink trace is exactly the
readiness write followed by its flush — the flushed `"OK"` line and no
prediction line. -/
theorem evaluate_readiness_before_open {α ε : Type} (render : α → String) (e : ε) :
    evaluate (α := α) render (.error e)
      = ([Event.write "OK\n", Event.flush], some (.openFailed e)) ∧
    writesOf (evaluate (α := α) render (.error e)).1 = ["OK\n"] :=
  ⟨rfl, rfl⟩

/-! ### The metric computation of `validate.py`

`validate.py` accumulates the prediction batches and then prints
`np.mean(np.absolute(data["targets"] - np.concatenate(predictions)))`.
Arrays are rectangular lists of `ℚ`-rows.  numpy's subtraction broadcasts:
along an axis the operands must have equal extents or one extent must be 1,
which is stretched across the other; otherwise numpy raises a broadcast
error.  `np.concatenate` of an empty sequence of arrays is also an error. -/

/-- Errors numpy can raise in the metric line of `validate.py`. -/
inductive NpError where
  | emptyConcatenate : NpError
  | broadcastMismatch : NpError
deriving DecidableEq, Repr

/-- `np.concatenate(predictions)`: row-wise concatenation of the prediction
batches along the sample axis; numpy rejects an empty list of arrays. -/
def npConcatenate (ls : List (List (List ℚ))) : Except NpError (List (List ℚ)) :=
  if ls.isEmpty then .error .emptyConcatenate else .ok ls.flatten

/-- Element-wise subtraction of two 1-D arrays under numpy broadcasting:
equal lengths subtract pairwise; a length-1 operand is stretched across the
other; any other combination is a broadcast error. -/
def npSubRow (t p : List ℚ) : Except NpError (List ℚ) :=
  if t.length = p.length then .ok (List.zipWith (fun a b => a - b) t p)
  else if t.length = 1 then .ok (p.map (fun x => t.headD 0 - x))
  else if p.length = 1 then .ok (t.map (fun x => x - p.headD 0))
  else .error .broadcastMismatch

/-- Row-by-row subtraction over a list of row pairs, propagating the first
broadcast error. -/
def subRows : List (List ℚ × List ℚ) → Except NpError (List (List ℚ))
  | [] => .ok []
  | q :: rest => do
    let d ← npSubRow q.1 q.2
    let ds ← subRows rest
    pure (d :: ds)

/-- Subtraction of two 2-D arrays under numpy broadcasting along the
leading (sample) axis: equal sample counts subtract row-by-row; a 1-row
operand is stretched across the other; any other combination is a
broadcast error. -/
def npSub (t p : List (List ℚ)) : Except NpError (List (List ℚ)) :=
  if t.length = p.length then subRows (t.zip p)
  else if t.length = 1 then subRows (p.map (fun r => (t.headD [], r)))
  else if p.length = 1 then subRows (t.map (fun r => (r, p.headD [])))
  else .error .broadcastMismatch

/-- `np.absolute`, element-wise on a 2-D array. -/
def npAbs (a : List (List ℚ)) : List (List ℚ) :=
  a.map (fun r => r.map (fun x => |x|))

/-- `np.mean` of a 2-D array: the sum of all elements divided by their
count.  (In `ℚ`, division by zero yields 0 where numpy produces `nan` for
an empty array; no claim exercises that case.) -/
def npMean (a : List (List ℚ)) : ℚ :=
  ((a.map (fun r => r.sum)).sum) / (((a.map (fun r => r.length)).sum : Nat) : ℚ)

/-- The metric of `validate.py`:
`np.mean(np.absolute(data["targets"] - np.concatenate(predictions)))`
computed over the accumulated prediction batches. -/
def validateMAE (targets : List (List ℚ)) (predictions : List (List (List ℚ))) :
    Except NpError ℚ := do
  let c ← npConcatenate predictions
  let d ← npSub targets c
  pure (npMean (npAbs d))

/-- Modelled from the spec: the mean of the absolute element-wise
differences between the targets series and the concatenated predictions
(the spec-side description of the reported metric, for the refinement
claim). -/
def specMeanAbsDiff (t p : List (List ℚ)) : ℚ :=
  (((t.zip p).map (fun q => (q.1.zip q.2).map (fun e => |e.1 - e.2|))).flatten).sum
    / ((((t.zip p).map (fun q =>
        (q.1.zip q.2).map (fun e => |e.1 - e.2|))).flatten).length : ℚ)

theorem subRows_eq_zipWith (t p : List (List ℚ))
    (hw : t.map List.length = p.map List.length) :
    subRows (t.zip p)
      = .ok ((t.zip p).map (fun q => List.zipWith (fun a b => a - b) q.1 q.2)) := by
  induction t generalizing p with
  | nil =>
    cases p with
    | nil => rfl
    | cons r rs => simp at hw
  | cons a as ih =>
    cases p with
    | nil => simp at hw
    | cons b bs =>
      simp only [List.map_cons, List.cons.injEq] at hw
      obtain ⟨hab, hrest⟩ := hw
      rw [List.zip_cons_cons, subRows]
      have hrow : npSubRow a b = .ok (List.zipWith (fun x y => x - y) a b) := by
        rw [npSubRow, if_pos hab]
      rw [hrow, ih bs hrest]
      rfl

theorem npMean_npAbs_diff (t p : List (List ℚ)) :
    npMean (npAbs ((t.zip p).map (fun q => List.zipWith (fun a b => a - b) q.1 q.2)))
      = specMeanAbsDiff t p := by
  have hrows : ((t.zip p).map (fun q => List.zipWith (fun a b => a - b) q.1 q.2)).map
      (fun r => r.map (fun x => |x|))
      = (t.zip p).map (fun q => (q.1.zip q.2).map (fun e => |e.1 - e.2|)) := by
    rw [List.map_map]
    apply List.map_congr_left
    intro q _
    show (List.zipWith (fun a b => a - b) q.1 q.2).map (fun x => |x|)
      = (q.1.zip q.2).map (fun e => |e.1 - e.2|)
    rw [List.map_zipWith, List.zip_eq_zipWith, List.map_zipWith]
  rw [npMean, npAbs, hrows, specMeanAbsDiff]
  rw [List.sum_flatten, List.length_flatten]

/-- C6: on a validation run whose targets and concatenated predictions have
identical shape, the reported metric is exactly the mean of the absolute
element-wise differences between the targets and the concatenated
predictions. -/
theorem validateMAE_is_mean_abs_diff (targets : List (List ℚ))
    (predictions : List (List (List ℚ)))
    (hne : predictions ≠ [])
    (hshape : targets.map List.length = predictions.flatten.map List.length) :
    validateMAE targets predictions
      = .ok (specMeanAbsDiff targets predictions.flatten) := by
  have hcount : targets.length = predictions.flatten.length := by
    have h := congrArg List.length hshape
    simp only [List.length_map] at h
    exact h
  have hc : npConcatenate predictions = .ok predictions.flatten := by
    rw [npConcatenate, if_neg]
    simpa [List.isEmpty_iff] using hne
  have hd : npSub targets predictions.flatten
      = .ok ((targets.zip predictions.flatten).map
          (fun q => List.zipWith (fun a b => a - b) q.1 q.2)) := by
    rw [npSub, if_pos hcount, subRows_eq_zipWith targets predictions.flatten hshape]
  show (npConcatenate predictions >>= fun c =>
    npSub targets c >>= fun d => pure (npMean (npAbs d)))
      = .ok (specMeanAbsDiff targets predictions.flatten)
  rw [hc]
  show (npSub targets predictions.flatten >>= fun d => pure (npMean (npAbs d))) = _
  rw [hd]
  show Except.ok (npMean (npAbs _)) = _
  rw [npMean_npAbs_diff]

/-- Witness for C6: the spec's end-to-end scenario 3 — 10 samples of 48
zeros with all-zero predictions give a reported MAE of exactly 0. -/
theorem validateMAE_is_mean_abs_diff_witness :
    validateMAE (List.replicate 10 (List.replicate 48 (0 : ℚ)))
        [List.replicate 10 (List.replicate 48 (0 : ℚ))] = .ok 0 := by
  have h := validateMAE_is_mean_abs_diff
    (List.replicate 10 (List.replicate 48 (0 : ℚ)))
    [List.replicate 10 (List.replicate 48 (0 : ℚ))]
    (by simp) (by rfl)
  rw [h]
  have hz : specMeanAbsDiff (List.replicate 10 (List.replicate 48 (0 : ℚ)))
      ([List.replicate 10 (List.replicate 48 (0 : ℚ))] :
        List (List (List ℚ))).flatten = 0 := by
    rw [specMeanAbsDiff]
    have hnum : (((List.replicate 10 (List.replicate 48 (0 : ℚ))).zip
          ([List.replicate 10 (List.replicate 48 (0 : ℚ))] :
            List (List (List ℚ))).flatten).map
        (fun q => (q.1.zip q.2).map (fun e => |e.1 - e.2|))).flatten.sum = 0 := by
      apply List.sum_eq_zero
      intro x hx
      rcases List.mem_flatten.mp hx with ⟨l, hl, hxl⟩
      rcases List.mem_map.mp hl with ⟨q, hq, rfl⟩
      rcases List.mem_map.mp hxl with ⟨e, he, rfl⟩
      obtain ⟨h1, h2⟩ := List.of_mem_zip he
      obtain ⟨hq1, hq2⟩ := List.of_mem_zip hq
      have hr1 : q.1 = List.replicate 48 (0 : ℚ) := List.eq_of_mem_replicate hq1
      have hr2 : q.2 = List.replicate 48 (0 : ℚ) := by
        have hfl : ([List.replicate 10 (List.replicate 48 (0 : ℚ))] :
            List (List (List ℚ))).flatten
            = List.replicate 10 (List.replicate 48 (0 : ℚ)) := by
          rw [List.flatten_cons, List.flatten_nil, List.append_nil]
        rw [hfl] at hq2
        exact List.eq_of_mem_replicate hq2
      rw [hr1] at h1
      rw [hr2] at h2
      have he1 : e.1 = 0 := List.eq_of_mem_replicate h1
      have he2 : e.2 = 0 := List.eq_of_mem_replicate h2
      rw [he1, he2]
      simp
    rw [hnum, zero_div]
  rw [hz]

/-- Counterexample to C7 as stated: a targets array with one sample against
two concatenated predicted samples has differing sample counts, yet numpy's
leading-axis broadcasting stretches the single target row across both
predictions, the subtraction succeeds, and an MAE value is produced
(the computation ends in `.ok`, not in an error). -/
theorem validate_shape_mismatch_counterexample :
    ([List.replicate 48 (0 : ℚ)] : List (List ℚ)).length
        ≠ ([[List.replicate 48 (0 : ℚ), List.replicate 48 0]] :
            List (List (List ℚ))).flatten.length ∧
    (validateMAE [List.replicate 48 (0 : ℚ)]
        [[List.replicate 48 (0 : ℚ), List.replicate 48 0]]).isOk = true := by
  constructor
  · decide
  · decide

/-- C7 amended: on a validation run whose targets and concatenated
predictions have different sample counts, NEITHER of which is 1 (so
numpy's leading-axis broadcasting cannot reconcile them), the metric
computation fails with an error and no MAE value is produced. -/
theorem validate_shape_mismatch (targets : List (List ℚ))
    (predictions : List (List (List ℚ)))
    (hcount : targets.length ≠ predictions.flatten.length)
    (ht1 : targets.length ≠ 1) (hp1 : predictions.flatten.length ≠ 1) :
    ∃ e, validateMAE targets predictions = .error e := by
  cases hpe : predictions.isEmpty with
  | true =>
    refine ⟨.emptyConcatenate, ?_⟩
    show (npConcatenate predictions >>= fun c =>
      npSub targets c >>= fun d => pure (npMean (npAbs d))) = _
    rw [npConcatenate, if_pos hpe]
    rfl
  | false =>
    refine ⟨.broadcastMismatch, ?_⟩
    show (npConcatenate predictions >>= fun c =>
      npSub targets c >>= fun d => pure (npMean (npAbs d))) = _
    rw [npConcatenate, if_neg (by rw [hpe]; simp)]
    show (npSub targets predictions.flatten >>= fun d => pure (npMean (npAbs d))) = _
    rw [npSub, if_neg hcount, if_neg ht1, if_neg hp1]
    rfl

/-- Witness for the amended C7: 2 target samples against 3 predicted
samples fail with an error. -/
theorem validate_shape_mismatch_witness :
    ∃ e, validateMAE (List.replicate 2 (List.replicate 48 (0 : ℚ)))
        [List.replicate 3 (List.replicate 48 (0 : ℚ))] = .error e :=
  validate_shape_mismatch (List.replicate 2 (List.replicate 48 (0 : ℚ)))
    [List.replicate 3 (List.replicate 48 (0 : ℚ))]
    (by decide) (by decide) (by decide)

end ClimateHack
